import Mathlib

set_option maxRecDepth 8192

namespace Nixdoc

/-- Convert a Lean string literal to the character-list representation used
throughout this development.  All program text is modelled as `List Char`
(mirroring the contents of a Rust string slice) so that the string routines
below are amenable to structural induction while remaining executable. -/
def chars (s : String) : List Char := s.data

/-- The single-quote character (ASCII code 39). -/
def squote : Char := Char.ofNat 39

/-- Model of Rust `str::trim_start` on character lists: drop leading
whitespace characters.  (Rust trims Unicode whitespace; for the ASCII inputs
relevant here `Char.isWhitespace` coincides with it.) -/
def ltrim : List Char → List Char
  | [] => []
  | c :: cs => if c.isWhitespace then ltrim cs else c :: cs

/-- Model of Rust `str::trim_end` on character lists. -/
def rtrim (cs : List Char) : List Char := (ltrim cs.reverse).reverse

/-- Model of Rust `str::trim`: strip whitespace from both ends. -/
def trim (cs : List Char) : List Char := rtrim (ltrim cs)

/-- Model of Rust `str::starts_with` on character lists: `startsWithL s p`
holds when `p` is an initial segment of `s`. -/
def startsWithL : List Char → List Char → Bool
  | _, [] => true
  | [], _ :: _ => false
  | c :: cs, p :: ps => if c = p then startsWithL cs ps else false

/-- Auxiliary splitter behind the model of Rust `str::lines`; `cur` holds the
characters of the current line in reverse order. -/
def linesAux : List Char → List Char → List (List Char)
  | [], cur => [cur.reverse]
  | c :: cs, cur => if c = '\n' then cur.reverse :: linesAux cs [] else linesAux cs (c :: cur)

/-- Model of Rust `str::lines`: the empty string yields no lines, and a
trailing newline does not yield a trailing empty line.  (Carriage returns are
not modelled; the inputs of interest are newline-separated.) -/
def rustLines (cs : List Char) : List (List Char) :=
  match cs with
  | [] => []
  | _ :: _ => if cs.getLast? = some '\n' then (linesAux cs []).dropLast else linesAux cs []

/-- Kinds of lexer tokens that `retrieve_doc_comment` distinguishes.  The
external parser is out of scope and treated as a black box producing a token
stream; only the whitespace/comment/other distinction is consulted. -/
inductive TokenKind where
  | whitespace
  | comment
  | other
deriving DecidableEq

/-- A lexer token: its kind and its raw text.  The external library's
comment cast is modelled as succeeding exactly on comment-kind tokens and
exposing the token text. -/
structure Token where
  kind : TokenKind
  text : List Char
deriving DecidableEq

/-- The block-comment opener checked by `retrieve_doc_comment`. -/
def slashStar : List Char := ['/', '*']

/-- The adjacency test of `retrieve_doc_comment` (src/main.rs lines 106-109):
merging across a whitespace token continues exactly when stripping one
leading newline from its text leaves no further newline. -/
def wsContinues : List Char → Bool
  | '\n' :: trail => !(trail.contains '\n')
  | _ => false

/-- The merge loop of `retrieve_doc_comment` (src/main.rs lines 98-114):
starting from token `tok`, repeatedly prepend line-comment text on adjacent
lines.  `rest` lists the tokens before `tok`, nearest first (reverse document
order); `acc` is the accumulated result. -/
def mergeBack : Token → List Token → List Char → List Char
  | tok, rest, acc =>
    if tok.kind = TokenKind.comment then
      let acc1 := tok.text ++ acc
      match rest with
      | ws :: rest1 =>
        if ws.kind = TokenKind.whitespace then
          if wsContinues ws.text then
            let acc2 := ws.text ++ acc1
            match rest1 with
            | next :: rest2 => mergeBack next rest2 acc2
            | [] => acc2
          else acc1
        else acc1
      | [] => acc1
    else acc

/-- The backward scan of `retrieve_doc_comment` (src/main.rs lines 84-97)
over the tokens preceding a node, nearest token first: step over at most one
whitespace token, require a comment token, return a block comment as-is and
otherwise run the merge loop. -/
def scanBack : List Token → Option (List Char)
  | [] => none
  | t0 :: r0 =>
    let stepped : Option (Token × List Token) :=
      if t0.kind = TokenKind.whitespace then
        match r0 with
        | t1 :: r1 => some (t1, r1)
        | [] => none
      else some (t0, r0)
    match stepped with
    | none => none
    | some (tok, rest) =>
      if tok.kind = TokenKind.comment then
        if startsWithL tok.text slashStar then some tok.text
        else some (mergeBack tok rest [])
      else none

/-- Model of `retrieve_doc_comment` (src/main.rs lines 79-116).  A node is
represented by the list of tokens that precede it, in document order. -/
def retrieve_doc_comment (pre : List Token) : Option (List Char) :=
  scanBack pre.reverse

/-- The three scanner modes of `parse_doc_comment` (src/main.rs line 137).
The source constructor `Type` is a reserved word in Lean and is rendered
`Typ`. -/
inductive ParseState where
  | Doc
  | Typ
  | Example
deriving DecidableEq

/-- Model of the `DocComment` struct (src/main.rs lines 59-69).  The source
field `example` is a reserved word in Lean and is rendered `example'`. -/
structure DocComment where
  doc : List Char
  doc_type : Option (List Char)
  example' : Option (List Char)
deriving DecidableEq

/-- The mutable scanner state of `parse_doc_comment`: the three accumulators
and the current mode. -/
structure ScanState where
  doc : List Char
  doc_type : List Char
  example' : List Char
  mode : ParseState
deriving DecidableEq

/-- The literal marker switching the scanner to Type mode. -/
def typeMarker : List Char := chars "Type:"

/-- The literal marker switching the scanner to Example mode. -/
def exampleMarker : List Char := chars "Example:"

/-- One loop iteration of `parse_doc_comment` (src/main.rs lines 144-168):
trim the line, apply the `Type:` check and then the `Example:` check to the
(possibly already stripped) line, then append to the accumulator selected by
the resulting mode.  The source strips the markers by byte index (5 and 8);
as the markers are ASCII this equals dropping that many characters. -/
def processLine (st : ScanState) (rawLine : List Char) : ScanState :=
  let line := trim rawLine
  let p1 : ParseState × List Char :=
    if startsWithL line typeMarker then (ParseState.Typ, line.drop 5) else (st.mode, line)
  let p2 : ParseState × List Char :=
    if startsWithL p1.2 exampleMarker then (ParseState.Example, p1.2.drop 8) else p1
  match p2.1 with
  | ParseState.Typ => { st with doc_type := st.doc_type ++ trim p2.2, mode := ParseState.Typ }
  | ParseState.Doc => { st with doc := st.doc ++ trim p2.2 ++ ['\n'], mode := ParseState.Doc }
  | ParseState.Example =>
      { st with example' := st.example' ++ trim p2.2 ++ ['\n'], mode := ParseState.Example }

/-- The initial scanner state of `parse_doc_comment`: empty accumulators,
Doc mode. -/
def initialScan : ScanState := ⟨[], [], [], ParseState.Doc⟩

/-- The scanner loop of `parse_doc_comment` over the trimmed input's lines. -/
def scanComment (raw : List Char) : ScanState :=
  (rustLines (trim raw)).foldl processLine initialScan

/-- Model of `parse_doc_comment` (src/main.rs lines 136-177): run the line
scanner, trim the description accumulator, and turn empty type/example
accumulators into absent values. -/
def parse_doc_comment (raw : List Char) : DocComment :=
  let st := scanComment raw
  { doc := trim st.doc
    doc_type := if st.doc_type = [] then none else some st.doc_type
    example' := if st.example' = [] then none else some st.example' }

/-- Model of the `SingleArg` struct (src/docbook.rs lines 43-47). -/
structure SingleArg where
  name : List Char
  doc : Option (List Char)
deriving DecidableEq

/-- Model of the `Argument` enum (src/docbook.rs lines 51-58). -/
inductive Argument where
  | Flat (arg : SingleArg)
  | Pattern (args : List SingleArg)
deriving DecidableEq

/-- One named entry of a destructuring pattern parameter: its identifier text
and the tokens preceding the entry node (consulted for its doc comment). -/
structure PatEntry where
  name : List Char
  pre : List Token
deriving DecidableEq

/-- Model of the external parser's `Param` shape: a plain identifier
parameter (with its identifier text and preceding tokens) or a destructuring
pattern parameter with its entries in declaration order. -/
inductive Param where
  | identParam (name : List Char) (pre : List Token)
  | pattern (entries : List PatEntry)
deriving DecidableEq

/-- Model of the external parser's function-literal shape, restricted to what
`collect_lambda_args` inspects: each level has a parameter, and the body is
either a further function literal (`curried`) or anything else (`last`). -/
inductive Lambda where
  | last (p : Param)
  | curried (p : Param) (inner : Lambda)
deriving DecidableEq

/-- The Argument built by one iteration of `collect_lambda_args`
(src/main.rs lines 185-203): a Flat argument for an identifier parameter, a
Pattern argument (entries in declaration order) for a pattern parameter, the
doc of each harvested by `retrieve_doc_comment`. -/
def argOf : Param → Argument
  | Param.identParam name pre => Argument.Flat ⟨name, retrieve_doc_comment pre⟩
  | Param.pattern entries =>
      Argument.Pattern (entries.map fun e => ⟨e.name, retrieve_doc_comment e.pre⟩)

/-- Model of `collect_lambda_args` (src/main.rs lines 181-213): push one
Argument per curry level, continuing while the body is itself a function
literal. -/
def collect_lambda_args : Lambda → List Argument
  | Lambda.last p => [argOf p]
  | Lambda.curried p inner => argOf p :: collect_lambda_args inner

/-- Specification-side description of a curried function: the list of its
parameter levels in curry order, outermost first, up to the first body that
is not a function literal. -/
def paramsOf : Lambda → List Param
  | Lambda.last p => [p]
  | Lambda.curried p inner => p :: paramsOf inner

/-- Model of the external parser's expression shape, restricted to what
`collect_entry_information` inspects: a function literal or anything else. -/
inductive ValueExpr where
  | lambda (l : Lambda)
  | nonLambda
deriving DecidableEq

/-- Model of an attribute binding node (`AttrpathValue`): the tokens
preceding the node, the textual attribute path, and the bound value. -/
structure AttrpathValue where
  pre : List Token
  attrpath : List Char
  value : Option ValueExpr
deriving DecidableEq

/-- Model of the `DocItem` struct (src/main.rs lines 71-76). -/
structure DocItem where
  name : List Char
  comment : DocComment
  args : List Argument
deriving DecidableEq

/-- Model of `retrieve_doc_item` (src/main.rs lines 120-133): if no doc
comment is attached, produce nothing; otherwise parse the comment and build a
DocItem with no arguments yet. -/
def retrieve_doc_item (node : AttrpathValue) : Option DocItem :=
  match retrieve_doc_comment node.pre with
  | none => none
  | some comment => some ⟨node.attrpath, parse_doc_comment comment, []⟩

/-- Model of `collect_entry_information` (src/main.rs lines 222-230). -/
def collect_entry_information (entry : AttrpathValue) : Option DocItem :=
  match retrieve_doc_item entry with
  | none => none
  | some docItem =>
    match entry.value with
    | some (ValueExpr.lambda l) => some { docItem with args := collect_lambda_args l }
    | _ => some docItem

/-- Model of the `ManualEntry` struct (src/docbook.rs lines 116-136).  The
source field `example` is a reserved word in Lean and is rendered
`example'`. -/
structure ManualEntry where
  category : List Char
  name : List Char
  fn_type : Option (List Char)
  description : List (List Char)
  example' : Option (List Char)
  args : List Argument
deriving DecidableEq

/-- Model of Rust `str::split` at the fixed separator of two newlines, as
used on the description in `main` (src/main.rs line 250): leftmost-first,
non-overlapping occurrences of the separator delimit the pieces. -/
def splitNlNl : List Char → List (List Char)
  | [] => [[]]
  | '\n' :: '\n' :: rest => [] :: splitNlNl rest
  | c :: rest =>
    match splitNlNl rest with
    | [] => [[c]]
    | l :: ls => (c :: l) :: ls

/-- Specification-side predicate: whether the text contains two consecutive
newline characters (the blank-line separator of the description split). -/
def hasNlNl : List Char → Bool
  | [] => false
  | [_] => false
  | c :: d :: rest => (c = '\n' && d = '\n') || hasNlNl (d :: rest)

/-- The ManualEntry construction in `main` (src/main.rs lines 246-256): the
description is the parsed doc split on blank-line boundaries. -/
def toManualEntry (category : List Char) (d : DocItem) : ManualEntry :=
  { category := category
    name := d.name
    fn_type := d.comment.doc_type
    description := splitNlNl d.comment.doc
    example' := d.comment.example'
    args := d.args }

/-- The entry pipeline of `main` (src/main.rs lines 237-257) from the list of
candidate attribute bindings (category fixed by the command line). -/
def entriesOf (category : List Char) (bindings : List AttrpathValue) : List ManualEntry :=
  (bindings.filterMap collect_entry_information).map (toManualEntry category)

/-- Events written to the XML event writer, as far as src/docbook.rs emits
them: element start (with attributes), element end, character data, and CDATA
sections. -/
inductive XmlEvent where
  | start (name : List Char) (attrs : List (List Char × List Char))
  | endE
  | content (text : List Char)
  | cdata (text : List Char)
deriving DecidableEq

/-- The Flat branch of `Argument::write_argument_xml` (src/docbook.rs lines
65-81): a varlistentry whose term is the argument name and whose listitem
paragraph is the argument doc (trimmed), defaulting to the fixed placeholder
text when the doc is absent. -/
def flatArgumentXml (arg : SingleArg) : List XmlEvent :=
  [XmlEvent.start (chars "varlistentry") [],
   XmlEvent.start (chars "term") [],
   XmlEvent.start (chars "varname") [],
   XmlEvent.content arg.name,
   XmlEvent.endE, XmlEvent.endE,
   XmlEvent.start (chars "listitem") [],
   XmlEvent.start (chars "para") [],
   XmlEvent.content (trim (arg.doc.getD (chars "Function argument"))),
   XmlEvent.endE, XmlEvent.endE, XmlEvent.endE]

/-- Model of `Argument::write_argument_xml` (src/docbook.rs lines 62-111).
The recursive call in the Pattern branch is always applied to a Flat
argument, so it is expressed through `flatArgumentXml`. -/
def write_argument_xml : Argument → List XmlEvent
  | Argument.Flat arg => flatArgumentXml arg
  | Argument.Pattern patternArgs =>
      [XmlEvent.start (chars "varlistentry") [],
       XmlEvent.start (chars "term") [],
       XmlEvent.start (chars "varname") [],
       XmlEvent.content (chars "pattern"),
       XmlEvent.endE, XmlEvent.endE,
       XmlEvent.start (chars "listitem") [],
       XmlEvent.start (chars "para") [],
       XmlEvent.content (chars "Structured function argument"),
       XmlEvent.endE,
       XmlEvent.start (chars "variablelist") []]
      ++ (patternArgs.map flatArgumentXml).flatten
      ++ [XmlEvent.endE, XmlEvent.endE, XmlEvent.endE]

/-- Model of the quote rewriting `name.replace(..., "-prime")` applied to the
single-quote character (src/docbook.rs line 142). -/
def replaceQuote : List Char → List Char
  | [] => []
  | c :: cs => if c = squote then chars "-prime" ++ replaceQuote cs else c :: replaceQuote cs

/-- The `title` local of `write_section_xml` (src/docbook.rs line 141). -/
def sectionTitle (e : ManualEntry) : List Char :=
  chars "lib." ++ e.category ++ chars "." ++ e.name

/-- The `ident` local of `write_section_xml` (src/docbook.rs line 142): the
fully-qualified name with single quotes rewritten. -/
def sectionIdent (e : ManualEntry) : List Char :=
  chars "lib." ++ e.category ++ chars "." ++ replaceQuote e.name

/-- Model of `ManualEntry::write_section_xml` (src/docbook.rs lines
140-228) as the list of events written. -/
def write_section_xml (e : ManualEntry) : List XmlEvent :=
  [XmlEvent.start (chars "section")
     [(chars "xml:id", chars "function-library-" ++ sectionIdent e)]]
  ++ [XmlEvent.start (chars "title") [], XmlEvent.start (chars "function") [],
      XmlEvent.content (sectionTitle e), XmlEvent.endE, XmlEvent.endE]
  ++ [XmlEvent.start (chars "xi:include")
        [(chars "href", chars "./overrides/" ++ sectionIdent e ++ chars ".xml")],
      XmlEvent.start (chars "xi:fallback") []]
  ++ (match e.fn_type with
      | some t =>
        [XmlEvent.start (chars "subtitle") [], XmlEvent.start (chars "literal") [],
         XmlEvent.content t, XmlEvent.endE, XmlEvent.endE]
      | none => [])
  ++ (e.description.map fun p =>
        [XmlEvent.start (chars "para") [], XmlEvent.content p, XmlEvent.endE]).flatten
  ++ (if e.args.isEmpty then []
      else [XmlEvent.start (chars "variablelist") []]
           ++ (e.args.map write_argument_xml).flatten ++ [XmlEvent.endE])
  ++ (match e.example' with
      | some ex =>
        [XmlEvent.start (chars "example") [], XmlEvent.start (chars "title") [],
         XmlEvent.start (chars "function") [], XmlEvent.content (sectionTitle e),
         XmlEvent.endE, XmlEvent.content (chars " usage example"), XmlEvent.endE,
         XmlEvent.start (chars "programlisting") [], XmlEvent.cdata ex,
         XmlEvent.endE, XmlEvent.endE]
      | none => [])
  ++ [XmlEvent.endE, XmlEvent.endE]
  ++ [XmlEvent.start (chars "xi:include")
        [(chars "href", chars "./locations.xml"), (chars "xpointer", sectionIdent e)],
      XmlEvent.endE]
  ++ [XmlEvent.endE]

/-- Modelled from the spec: the lightweight-markup renderer (the repository's
`commonmark` module, whose source file is not among the given sources) emits
for each entry a subheading naming the fully-qualified `category.name`, with
any single-quote character in the name rewritten to the `-prime` token when
forming the anchor identifier (spec section 4.5). -/
def commonmarkAnchor (e : ManualEntry) : List Char :=
  e.category ++ chars "." ++ replaceQuote e.name

/-- Left-trimming only removes characters: the result is a subset of the
input. -/
theorem ltrim_sub (cs : List Char) : ltrim cs ⊆ cs := by
  induction cs with
  | nil => simp [ltrim]
  | cons c cs ih =>
    by_cases hw : c.isWhitespace
    · simp only [ltrim, hw, if_true]
      exact ih.trans (List.subset_cons_self c cs)
    · simp [ltrim, hw]

/-- Trimming only removes characters: the result is a subset of the input. -/
theorem trim_sub (cs : List Char) : trim cs ⊆ cs := by
  intro a ha
  unfold trim rtrim at ha
  have h1 : a ∈ ltrim (ltrim cs).reverse := List.mem_reverse.mp ha
  have h2 : a ∈ (ltrim cs).reverse := ltrim_sub _ h1
  exact ltrim_sub cs (List.mem_reverse.mp h2)

/-- Every line produced by the line splitter is free of newline characters
(provided the accumulator is). -/
theorem linesAux_no_newline (cs : List Char) :
    ∀ cur, '\n' ∉ cur → ∀ l ∈ linesAux cs cur, '\n' ∉ l := by
  induction cs with
  | nil =>
    intro cur hcur l hl
    simp [linesAux] at hl
    subst hl
    simpa using hcur
  | cons c cs ih =>
    intro cur hcur l hl
    by_cases hc : c = '\n'
    · subst hc
      simp only [linesAux, if_true] at hl
      rcases List.mem_cons.mp hl with h | h
      · subst h; simpa using hcur
      · exact ih [] (by simp) l h
    · simp only [linesAux, hc, if_false, if_neg hc] at hl
      refine ih (c :: cur) ?_ l hl
      intro hmem
      rcases List.mem_cons.mp hmem with h | h
      · exact hc h.symm
      · exact hcur h

/-- Every line produced by the model of `str::lines` is free of newline
characters. -/
theorem rustLines_no_newline (cs : List Char) : ∀ l ∈ rustLines cs, '\n' ∉ l := by
  intro l hl
  cases cs with
  | nil => simp [rustLines] at hl
  | cons c cs' =>
    unfold rustLines at hl
    by_cases hlast : (c :: cs').getLast? = some '\n'
    · rw [if_pos hlast] at hl
      exact linesAux_no_newline _ [] (by simp) l ((List.dropLast_prefix _).subset hl)
    · rw [if_neg hlast] at hl
      exact linesAux_no_newline _ [] (by simp) l hl

/-- Claim C2: a candidate attribute binding with no attached doc comment
produces no DocItem from `retrieve_doc_item`, none from
`collect_entry_information`, and no ManualEntry in the output pipeline,
regardless of its structure; the absence is a silent exclusion, not an
error. -/
theorem claim_C2_undocumented_excluded (entry : AttrpathValue)
    (h : retrieve_doc_comment entry.pre = none) :
    retrieve_doc_item entry = none ∧ collect_entry_information entry = none ∧
    ∀ category : List Char, entriesOf category [entry] = [] := by
  have h1 : retrieve_doc_item entry = none := by
    unfold retrieve_doc_item
    rw [h]
  have h2 : collect_entry_information entry = none := by
    unfold collect_entry_information
    rw [h1]
  refine ⟨h1, h2, ?_⟩
  intro category
  simp [entriesOf, h2]

/-- Closed witness for claim C2: a binding of a lambda with no preceding
tokens is excluded everywhere. -/
theorem claim_C2_undocumented_excluded_witness :
    retrieve_doc_item
        ⟨[], chars "id", some (ValueExpr.lambda (Lambda.last (Param.identParam (chars "x") [])))⟩
      = none ∧
    collect_entry_information
        ⟨[], chars "id", some (ValueExpr.lambda (Lambda.last (Param.identParam (chars "x") [])))⟩
      = none ∧
    entriesOf (chars "trivial")
        [⟨[], chars "id", some (ValueExpr.lambda (Lambda.last (Param.identParam (chars "x") [])))⟩]
      = [] := by
  have h := claim_C2_undocumented_excluded
    ⟨[], chars "id", some (ValueExpr.lambda (Lambda.last (Param.identParam (chars "x") [])))⟩
    (by decide)
  exact ⟨h.1, h.2.1, h.2.2 (chars "trivial")⟩

/-- Claim C3: `collect_lambda_args` emits exactly one Argument per curry
level, in curry order (outermost first), a Flat argument for an identifier
parameter and a Pattern argument (members in declaration order) for a
destructuring parameter, stopping at the first non-lambda body; in
particular a function taking `a` and then pattern `{b, c}` with a
non-function body yields [Flat a, Pattern [b, c]]. -/
theorem claim_C3_curry_flattening :
    (∀ l : Lambda, collect_lambda_args l = (paramsOf l).map argOf) ∧
    collect_lambda_args
        (Lambda.curried (Param.identParam (chars "a") [])
          (Lambda.last (Param.pattern [⟨chars "b", []⟩, ⟨chars "c", []⟩])))
      = [Argument.Flat ⟨chars "a", none⟩,
         Argument.Pattern [⟨chars "b", none⟩, ⟨chars "c", none⟩]] := by
  constructor
  · intro l
    induction l with
    | last p => rfl
    | curried p inner ih => simp [collect_lambda_args, paramsOf, ih]
  · decide

/-- Claim C10: in the XML renderer a Flat argument without a doc is rendered
with the fixed placeholder paragraph "Function argument", one with a doc is
rendered with the doc trimmed, and pattern members are rendered through the
same Flat rule. -/
theorem claim_C10_flat_argument_rendering :
    (∀ name : List Char,
        (flatArgumentXml ⟨name, none⟩)[8]? =
          some (XmlEvent.content (chars "Function argument"))) ∧
    (∀ name d : List Char,
        (flatArgumentXml ⟨name, some d⟩)[8]? = some (XmlEvent.content (trim d))) ∧
    (∀ arg : SingleArg, write_argument_xml (Argument.Flat arg) = flatArgumentXml arg) ∧
    (∀ patternArgs : List SingleArg,
        write_argument_xml (Argument.Pattern patternArgs) =
          [XmlEvent.start (chars "varlistentry") [],
           XmlEvent.start (chars "term") [],
           XmlEvent.start (chars "varname") [],
           XmlEvent.content (chars "pattern"),
           XmlEvent.endE, XmlEvent.endE,
           XmlEvent.start (chars "listitem") [],
           XmlEvent.start (chars "para") [],
           XmlEvent.content (chars "Structured function argument"),
           XmlEvent.endE,
           XmlEvent.start (chars "variablelist") []]
          ++ (patternArgs.map flatArgumentXml).flatten
          ++ [XmlEvent.endE, XmlEvent.endE, XmlEvent.endE]) := by
  refine ⟨?_, ?_, ?_, ?_⟩
  · intro name
    show some (XmlEvent.content (trim (chars "Function argument"))) = _
    decide
  · intro name d
    rfl
  · intro arg
    rfl
  · intro patternArgs
    rfl

/-- Claim C7: when the nearest preceding comment token is a block comment
(text beginning with the block opener), `retrieve_doc_comment` returns that
text as-is without merging anything earlier, regardless of what precedes,
whether or not a whitespace token separates it from the node. -/
theorem claim_C7_block_comment_as_is (earlier : List Token) (ctext : List Char)
    (hblock : startsWithL ctext slashStar = true) :
    retrieve_doc_comment (earlier ++ [⟨TokenKind.comment, ctext⟩]) = some ctext ∧
    ∀ twText : List Char,
      retrieve_doc_comment
          (earlier ++ [⟨TokenKind.comment, ctext⟩, ⟨TokenKind.whitespace, twText⟩])
        = some ctext := by
  constructor
  · simp [retrieve_doc_comment, List.reverse_append, scanBack, hblock]
  · intro twText
    simp [retrieve_doc_comment, List.reverse_append, scanBack, hblock]

/-- Closed witness for claim C7: a block comment preceded by a line comment
is harvested as-is. -/
theorem claim_C7_block_comment_as_is_witness :
    retrieve_doc_comment
        ([⟨TokenKind.comment, chars "-- x"⟩] ++ [⟨TokenKind.comment, ['/', '*', ' ', 'd', ' ', '*', '/']⟩])
      = some ['/', '*', ' ', 'd', ' ', '*', '/'] ∧
    retrieve_doc_comment
        ([⟨TokenKind.comment, chars "-- x"⟩]
          ++ [⟨TokenKind.comment, ['/', '*', ' ', 'd', ' ', '*', '/']⟩,
              ⟨TokenKind.whitespace, chars "\n"⟩])
      = some ['/', '*', ' ', 'd', ' ', '*', '/'] := by
  have h := claim_C7_block_comment_as_is [⟨TokenKind.comment, chars "-- x"⟩]
    ['/', '*', ' ', 'd', ' ', '*', '/'] (by decide)
  exact ⟨h.1, h.2 (chars "\n")⟩

/-- Claim C1: merging of line comments continues across a whitespace token
exactly when its text is one newline followed by newline-free content; a
whitespace token failing that test (for example a blank line) stops the
merge, so only the comment run contiguous to the definition is harvested; in
particular the lines "-- old\n\n-- new\nfoo = 1;" harvest "-- new" only,
while two comments on adjacent lines are merged. -/
theorem claim_C1_adjacent_line_merge :
    (∀ wsText : List Char,
        wsContinues wsText = true ↔
          ∃ trail, wsText = '\n' :: trail ∧ trail.contains '\n' = false) ∧
    (∀ (earlier : List Token) (c1 w c2 tw : List Char),
        wsContinues w = false → startsWithL c2 slashStar = false →
        retrieve_doc_comment
            (earlier ++ [⟨TokenKind.comment, c1⟩, ⟨TokenKind.whitespace, w⟩,
                         ⟨TokenKind.comment, c2⟩, ⟨TokenKind.whitespace, tw⟩])
          = some c2) ∧
    retrieve_doc_comment
        [⟨TokenKind.comment, chars "-- old"⟩, ⟨TokenKind.whitespace, chars "\n\n"⟩,
         ⟨TokenKind.comment, chars "-- new"⟩, ⟨TokenKind.whitespace, chars "\n"⟩]
      = some (chars "-- new") ∧
    retrieve_doc_comment
        [⟨TokenKind.comment, chars "-- a"⟩, ⟨TokenKind.whitespace, chars "\n"⟩,
         ⟨TokenKind.comment, chars "-- b"⟩, ⟨TokenKind.whitespace, chars "\n"⟩]
      = some (chars "-- a" ++ '\n' :: chars "-- b") := by
  refine ⟨?_, ?_, by decide, by decide⟩
  · intro wsText
    cases wsText with
    | nil => simp [wsContinues]
    | cons c tr =>
      by_cases hc : c = '\n'
      · subst hc
        simp [wsContinues]
      · simp [wsContinues, hc]
  · intro earlier c1 w c2 tw hw hc2
    simp [retrieve_doc_comment, List.reverse_append, scanBack, hc2, mergeBack, hw]

/-- Closed witness for claim C1: a blank line containing a stray space also
breaks the merge. -/
theorem claim_C1_adjacent_line_merge_witness :
    retrieve_doc_comment
        ([] ++ [⟨TokenKind.comment, chars "-- p"⟩, ⟨TokenKind.whitespace, chars "\n \n"⟩,
                ⟨TokenKind.comment, chars "-- q"⟩, ⟨TokenKind.whitespace, chars "\n"⟩])
      = some (chars "-- q") :=
  claim_C1_adjacent_line_merge.2.1 [] (chars "-- p") (chars "\n \n") (chars "-- q")
    (chars "\n") (by decide) (by decide)

/-- One scanner step never re-enters Doc mode once it has been left, and
leaves the description accumulator untouched in that case. -/
theorem processLine_not_doc (st : ScanState) (l : List Char)
    (h : st.mode ≠ ParseState.Doc) :
    (processLine st l).mode ≠ ParseState.Doc ∧ (processLine st l).doc = st.doc := by
  by_cases h1 : startsWithL (trim l) typeMarker = true
  · by_cases h2 : startsWithL ((trim l).drop 5) exampleMarker = true
    · simp [processLine, h1, h2]
    · simp [processLine, h1, h2]
  · by_cases h2 : startsWithL (trim l) exampleMarker = true
    · simp [processLine, h1, h2]
    · cases hm : st.mode with
      | Doc => exact absurd hm h
      | Typ => simp [processLine, h1, h2, hm]
      | Example => simp [processLine, h1, h2, hm]

/-- Claim C4: once the scanner mode of `parse_doc_comment` has switched away
from Doc, it never returns to Doc, and no later line is appended to the
description accumulator, for every sequence of input lines. -/
theorem claim_C4_marker_stickiness (ls : List (List Char)) (st : ScanState)
    (h : st.mode ≠ ParseState.Doc) :
    (ls.foldl processLine st).mode ≠ ParseState.Doc ∧
    (ls.foldl processLine st).doc = st.doc := by
  induction ls generalizing st with
  | nil => exact ⟨h, rfl⟩
  | cons l ls ih =>
    have hp := processLine_not_doc st l h
    have hrec := ih (processLine st l) hp.1
    simp only [List.foldl_cons]
    exact ⟨hrec.1, hrec.2.trans hp.2⟩

/-- Closed witness for claim C4: further prose lines after a mode switch do
not touch the description accumulator. -/
theorem claim_C4_marker_stickiness_witness :
    (([chars "abc", chars "def"]).foldl processLine ⟨[], [], [], ParseState.Typ⟩).mode
        ≠ ParseState.Doc ∧
    (([chars "abc", chars "def"]).foldl processLine ⟨[], [], [], ParseState.Typ⟩).doc
        = (⟨[], [], [], ParseState.Typ⟩ : ScanState).doc :=
  claim_C4_marker_stickiness [chars "abc", chars "def"] ⟨[], [], [], ParseState.Typ⟩
    (by decide)

/-- Claim C9: the marker checks of `parse_doc_comment` apply in every mode:
a `Type:` line occurring in Example mode switches the scanner to Type mode
and appends its remainder to the type accumulator (leaving the example
accumulator unchanged), and symmetrically an `Example:` line in Type mode
switches to Example mode; a concrete full run exhibits both the switch and
the subsequent routing of lines. -/
theorem claim_C9_markers_in_every_mode :
    (∀ (st : ScanState) (l : List Char),
        st.mode = ParseState.Example →
        startsWithL (trim l) typeMarker = true →
        startsWithL ((trim l).drop 5) exampleMarker = false →
        (processLine st l).mode = ParseState.Typ ∧
        (processLine st l).doc_type = st.doc_type ++ trim ((trim l).drop 5) ∧
        (processLine st l).example' = st.example') ∧
    (∀ (st : ScanState) (l : List Char),
        st.mode = ParseState.Typ →
        startsWithL (trim l) typeMarker = false →
        startsWithL (trim l) exampleMarker = true →
        (processLine st l).mode = ParseState.Example ∧
        (processLine st l).example' = st.example' ++ trim ((trim l).drop 8) ++ ['\n'] ∧
        (processLine st l).doc_type = st.doc_type) ∧
    parse_doc_comment (chars "desc\nExample:\nfoo\nType: Int -> Int\nbar")
      = ⟨chars "desc", some (chars "Int -> Intbar"), some ('\n' :: chars "foo" ++ ['\n'])⟩ := by
  refine ⟨?_, ?_, by decide⟩
  · intro st l hm h1 h2
    simp [processLine, h1, h2]
  · intro st l hm h1 h2
    simp [processLine, h1, h2]

/-- Closed witness for claim C9: a `Type:` line while in Example mode routes
its remainder to the type accumulator. -/
theorem claim_C9_markers_in_every_mode_witness :
    (processLine ⟨[], [], [], ParseState.Example⟩ (chars "Type: Int")).mode
        = ParseState.Typ ∧
    (processLine ⟨[], [], [], ParseState.Example⟩ (chars "Type: Int")).doc_type
        = (⟨[], [], [], ParseState.Example⟩ : ScanState).doc_type
          ++ trim ((trim (chars "Type: Int")).drop 5) ∧
    (processLine ⟨[], [], [], ParseState.Example⟩ (chars "Type: Int")).example'
        = (⟨[], [], [], ParseState.Example⟩ : ScanState).example' :=
  claim_C9_markers_in_every_mode.1 ⟨[], [], [], ParseState.Example⟩ (chars "Type: Int")
    rfl (by decide) (by decide)

/-- One scanner step keeps the type accumulator newline-free when fed a
newline-free line. -/
theorem processLine_doc_type_no_newline (st : ScanState) (l : List Char)
    (hst : '\n' ∉ st.doc_type) (hl : '\n' ∉ l) :
    '\n' ∉ (processLine st l).doc_type := by
  have htr : ∀ n : Nat, '\n' ∉ trim ((trim l).drop n) := by
    intro n hmem
    exact hl (trim_sub l (List.drop_subset n (trim l) (trim_sub _ hmem)))
  have htr0 : '\n' ∉ trim (trim l) := by
    intro hmem
    exact hl (trim_sub l (trim_sub _ hmem))
  by_cases h1 : startsWithL (trim l) typeMarker = true
  · by_cases h2 : startsWithL ((trim l).drop 5) exampleMarker = true
    · simpa [processLine, h1, h2] using hst
    · simp [processLine, h1, h2]
      exact ⟨hst, htr 5⟩
  · by_cases h2 : startsWithL (trim l) exampleMarker = true
    · simpa [processLine, h1, h2] using hst
    · cases hm : st.mode with
      | Doc => simpa [processLine, h1, h2, hm] using hst
      | Typ =>
        simp [processLine, h1, h2, hm]
        exact ⟨hst, htr0⟩
      | Example => simpa [processLine, h1, h2, hm] using hst

/-- The scanner fold keeps the type accumulator newline-free when all lines
are newline-free. -/
theorem foldl_doc_type_no_newline (ls : List (List Char)) (st : ScanState)
    (hls : ∀ l ∈ ls, '\n' ∉ l) (hst : '\n' ∉ st.doc_type) :
    '\n' ∉ (ls.foldl processLine st).doc_type := by
  induction ls generalizing st with
  | nil => exact hst
  | cons l ls ih =>
    simp only [List.foldl_cons]
    exact ih (processLine st l)
      (fun x hx => hls x (List.mem_cons_of_mem l hx))
      (processLine_doc_type_no_newline st l hst (hls l (List.mem_cons_self l ls)))

/-- The type accumulator of the scanner never contains a newline. -/
theorem scanComment_doc_type_no_newline (raw : List Char) :
    '\n' ∉ (scanComment raw).doc_type := by
  unfold scanComment
  exact foldl_doc_type_no_newline _ initialScan
    (rustLines_no_newline (trim raw)) (by simp [initialScan])

/-- Claim C8: `parse_doc_comment` reports a present type exactly when the
type accumulator is non-empty (and likewise for the example accumulator),
and a returned type contains no newline character: Type-mode lines are
appended without newlines, so the type signature collapses to one logical
line. -/
theorem claim_C8_presence_and_single_line_type (raw : List Char) :
    ((∃ s, (parse_doc_comment raw).doc_type = some s) ↔
        (scanComment raw).doc_type ≠ []) ∧
    ((∃ s, (parse_doc_comment raw).example' = some s) ↔
        (scanComment raw).example' ≠ []) ∧
    (∀ s, (parse_doc_comment raw).doc_type = some s → '\n' ∉ s) := by
  refine ⟨?_, ?_, ?_⟩
  · by_cases hA : (scanComment raw).doc_type = []
    · simp [parse_doc_comment, hA]
    · simp [parse_doc_comment, hA]
  · by_cases hA : (scanComment raw).example' = []
    · simp [parse_doc_comment, hA]
    · simp [parse_doc_comment, hA]
  · intro s hs
    by_cases hA : (scanComment raw).doc_type = []
    · simp [parse_doc_comment, hA] at hs
    · simp [parse_doc_comment, hA] at hs
      rw [← hs]
      exact scanComment_doc_type_no_newline raw

/-- Closed witness for claim C8: on a comment whose sole line is a `Type:`
marker line the parsed type is present and newline-free. -/
theorem claim_C8_presence_and_single_line_type_witness :
    (parse_doc_comment (chars "Type: Int")).doc_type = some (chars "Int") ∧
    '\n' ∉ chars "Int" := by
  have h := claim_C8_presence_and_single_line_type (chars "Type: Int")
  have hd : (parse_doc_comment (chars "Type: Int")).doc_type = some (chars "Int") := by
    decide
  exact ⟨hd, h.2.2 (chars "Int") hd⟩

/-- Splitting at the separator: the two leading newlines open a new piece. -/
theorem splitNlNl_cons_sep (rest : List Char) :
    splitNlNl ('\n' :: '\n' :: rest) = [] :: splitNlNl rest := rfl

/-- Splitting a cons that does not open the separator extends the first
piece. -/
theorem splitNlNl_cons_of_ne (c : Char) (rest : List Char)
    (h : ¬(c = '\n' ∧ rest.head? = some '\n')) :
    splitNlNl (c :: rest) =
      match splitNlNl rest with
      | [] => [[c]]
      | l :: ls => (c :: l) :: ls := by
  rw [splitNlNl.eq_def]
  split
  · rename_i heq
    exact List.noConfusion heq
  · rename_i rest' heq
    obtain ⟨h1, h2⟩ := List.cons.inj heq
    exact absurd ⟨h1, by rw [h2]; rfl⟩ h
  · rename_i c' rest' hno heq
    obtain ⟨h1, h2⟩ := List.cons.inj heq
    subst h1
    subst h2
    rfl

/-- A text without the blank-line separator splits into itself alone. -/
theorem splitNlNl_no_sep (b : List Char) (hb : hasNlNl b = false) :
    splitNlNl b = [b] := by
  induction b with
  | nil => rfl
  | cons c r ih =>
    cases r with
    | nil =>
      rw [splitNlNl_cons_of_ne c [] (by simp)]
      rfl
    | cons d r' =>
      simp only [hasNlNl, Bool.or_eq_false_iff, Bool.and_eq_false_iff] at hb
      have hcd : ¬(c = '\n' ∧ (d :: r').head? = some '\n') := by
        rintro ⟨h1, h2⟩
        simp at h2
        rcases hb.1 with h | h
        · simp [h1] at h
        · simp [h2] at h
      rw [splitNlNl_cons_of_ne c (d :: r') hcd, ih hb.2]

/-- Splitting a text of the shape `a ++ blank line ++ rest` peels off `a`
when `a` itself contains no separator and does not end in a newline. -/
theorem splitNlNl_append_sep (a b : List Char) (hna : hasNlNl a = false)
    (hlast : a.getLast? ≠ some '\n') :
    splitNlNl (a ++ '\n' :: '\n' :: b) = a :: splitNlNl b := by
  induction a with
  | nil => simp [splitNlNl_cons_sep]
  | cons c a' ih =>
    cases a' with
    | nil =>
      have hc : c ≠ '\n' := by simpa using hlast
      have : ([c] ++ '\n' :: '\n' :: b) = c :: '\n' :: '\n' :: b := rfl
      rw [this, splitNlNl_cons_of_ne c ('\n' :: '\n' :: b) (by simp [hc]),
        splitNlNl_cons_sep]
    | cons d a'' =>
      simp only [hasNlNl, Bool.or_eq_false_iff, Bool.and_eq_false_iff] at hna
      have hna' : hasNlNl (d :: a'') = false := by
        cases a'' with
        | nil => rfl
        | cons e a3 =>
          simp only [hasNlNl, Bool.or_eq_false_iff, Bool.and_eq_false_iff]
          have := hna.2
          simp only [hasNlNl, Bool.or_eq_false_iff, Bool.and_eq_false_iff] at this
          exact this
      have hlast' : (d :: a'').getLast? ≠ some '\n' := by
        rwa [List.getLast?_cons_cons] at hlast
      have hcd : ¬(c = '\n' ∧ ((d :: a'') ++ '\n' :: '\n' :: b).head? = some '\n') := by
        rintro ⟨h1, h2⟩
        simp at h2
        rcases hna.1 with h | h
        · simp [h1] at h
        · simp [h2] at h
      have hstep : (c :: d :: a'') ++ '\n' :: '\n' :: b
          = c :: ((d :: a'') ++ '\n' :: '\n' :: b) := rfl
      rw [hstep, splitNlNl_cons_of_ne c ((d :: a'') ++ '\n' :: '\n' :: b) hcd,
        ih hna' hlast']

/-- Claim C5 counterexample: for the description "a\nb\n\nc\nd" the entry
assembly produces exactly the two paragraphs "a\nb" and "c\nd"; the internal
line break survives as a newline, it is not collapsed to a space, refuting
the collapse clause of the claim. -/
theorem claim_C5_paragraph_split_counterexample :
    splitNlNl (chars "a\nb\n\nc\nd") = [chars "a\nb", chars "c\nd"] ∧
    '\n' ∈ chars "a\nb" ∧
    splitNlNl (chars "a\nb\n\nc\nd") ≠ [chars "a b", chars "c d"] := by decide

/-- Claim C5 as amended: a description consisting of two blocks around a
single blank line splits into exactly those two paragraphs, verbatim:
internal line breaks are preserved as single newlines (not collapsed to
spaces), and no further stripping happens at the split (the blocks of a
parsed description are already built from trimmed lines). -/
theorem claim_C5_paragraph_split_amended (a b : List Char)
    (_ha : a ≠ []) (_hb : b ≠ []) (hna : hasNlNl a = false) (hnb : hasNlNl b = false)
    (hlast : a.getLast? ≠ some '\n') :
    splitNlNl (a ++ '\n' :: '\n' :: b) = [a, b] := by
  rw [splitNlNl_append_sep a b hna hlast, splitNlNl_no_sep b hnb]

/-- Closed witness for the amended claim C5, at the claim's own example. -/
theorem claim_C5_paragraph_split_amended_witness :
    splitNlNl (chars "a\nb" ++ '\n' :: '\n' :: chars "c\nd")
      = [chars "a\nb", chars "c\nd"] :=
  claim_C5_paragraph_split_amended (chars "a\nb") (chars "c\nd")
    (by decide) (by decide) (by decide) (by decide) (by decide)

/-- Claim C6: in both renderers the identifier derived from an entry name
replaces every single-quote character by the multi-character token "-prime":
the rewriting removes all quotes, leaves quote-free names unchanged, keeps
the docbook section identifier and the spec-modelled lightweight-markup
anchor quote-free, and the docbook renderer uses that identifier in its
xml:id attribute, its override include path and its locations xpointer; the
name foo followed by a quote yields the identifier lib.strings.foo-prime. -/
theorem claim_C6_identifier_quote_safety :
    (∀ name : List Char, squote ∉ replaceQuote name) ∧
    (∀ name : List Char, squote ∉ name → replaceQuote name = name) ∧
    (∀ e : ManualEntry, squote ∉ e.category →
        squote ∉ sectionIdent e ∧ squote ∉ commonmarkAnchor e) ∧
    (∀ e : ManualEntry,
        (write_section_xml e).head? = some (XmlEvent.start (chars "section")
          [(chars "xml:id", chars "function-library-" ++ sectionIdent e)]) ∧
        XmlEvent.start (chars "xi:include")
            [(chars "href", chars "./overrides/" ++ sectionIdent e ++ chars ".xml")]
          ∈ write_section_xml e ∧
        XmlEvent.start (chars "xi:include")
            [(chars "href", chars "./locations.xml"), (chars "xpointer", sectionIdent e)]
          ∈ write_section_xml e) ∧
    sectionIdent ⟨chars "strings", 'f' :: 'o' :: 'o' :: [squote], none, [], none, []⟩
      = chars "lib.strings.foo-prime" := by
  have h1 : ∀ name : List Char, squote ∉ replaceQuote name := by
    intro name
    induction name with
    | nil => simp [replaceQuote]
    | cons c cs ih =>
      by_cases hc : c = squote
      · simp only [replaceQuote, hc, if_pos rfl]
        intro hmem
        rcases List.mem_append.mp hmem with h | h
        · exact absurd h (by decide)
        · exact ih h
      · simp only [replaceQuote, if_neg hc]
        intro hmem
        rcases List.mem_cons.mp hmem with h | h
        · exact hc h.symm
        · exact ih h
  have h2 : ∀ name : List Char, squote ∉ name → replaceQuote name = name := by
    intro name
    induction name with
    | nil => intro; rfl
    | cons c cs ih =>
      intro hname
      simp only [List.mem_cons, not_or] at hname
      have hc : ¬ c = squote := fun h => hname.1 h.symm
      simp [replaceQuote, hc, ih hname.2]
  have h3 : ∀ e : ManualEntry, squote ∉ e.category →
      squote ∉ sectionIdent e ∧ squote ∉ commonmarkAnchor e := by
    intro e hcat
    constructor
    · intro hmem
      simp only [sectionIdent, List.mem_append] at hmem
      rcases hmem with ((h | h) | h) | h
      · exact absurd h (by decide)
      · exact hcat h
      · exact absurd h (by decide)
      · exact h1 _ h
    · intro hmem
      simp only [commonmarkAnchor, List.mem_append] at hmem
      rcases hmem with (h | h) | h
      · exact hcat h
      · exact absurd h (by decide)
      · exact h1 _ h
  have h4 : ∀ e : ManualEntry,
      (write_section_xml e).head? = some (XmlEvent.start (chars "section")
        [(chars "xml:id", chars "function-library-" ++ sectionIdent e)]) ∧
      XmlEvent.start (chars "xi:include")
          [(chars "href", chars "./overrides/" ++ sectionIdent e ++ chars ".xml")]
        ∈ write_section_xml e ∧
      XmlEvent.start (chars "xi:include")
          [(chars "href", chars "./locations.xml"), (chars "xpointer", sectionIdent e)]
        ∈ write_section_xml e := by
    intro e
    refine ⟨rfl, ?_, ?_⟩
    · unfold write_section_xml
      exact List.mem_append_left _ (List.mem_append_left _ (List.mem_append_left _
        (List.mem_append_left _ (List.mem_append_left _ (List.mem_append_left _
          (List.mem_append_left _ (List.mem_append_right _
            (List.mem_cons_self _ _))))))))
    · unfold write_section_xml
      exact List.mem_append_left _ (List.mem_append_right _ (List.mem_cons_self _ _))
  exact ⟨h1, h2, h3, h4, by decide⟩

/-- Closed witness for claim C6: a quote-free name passes through unchanged
and a quoted name produces quote-free identifiers in both renderers. -/
theorem claim_C6_identifier_quote_safety_witness :
    replaceQuote (chars "map") = chars "map" ∧
    squote ∉ sectionIdent
        ⟨chars "strings", 'f' :: 'o' :: 'o' :: [squote], none, [], none, []⟩ ∧
    squote ∉ commonmarkAnchor
        ⟨chars "strings", 'f' :: 'o' :: 'o' :: [squote], none, [], none, []⟩ :=
  ⟨claim_C6_identifier_quote_safety.2.1 (chars "map") (by decide),
   (claim_C6_identifier_quote_safety.2.2.1
      ⟨chars "strings", 'f' :: 'o' :: 'o' :: [squote], none, [], none, []⟩ (by decide)).1,
   (claim_C6_identifier_quote_safety.2.2.1
      ⟨chars "strings", 'f' :: 'o' :: 'o' :: [squote], none, [], none, []⟩ (by decide)).2⟩

end Nixdoc
